import Mathlib

/-!
Verification of the adaptive large-series rendering pipeline of the charter
repository: the three point-reduction algorithms of
`src/charter/utils/downsampling.py` (`lttb_downsample`, `simple_downsample`,
`minmax_downsample`), the reduction/rasterization policy of
`src/charter/charts/timeseries.py`, and the dashboard composition logic of
`src/charter/charts/dashboard.py` together with the style registry of
`src/charter/styles/registry.py`.

Modelling conventions:
- numpy float64 x/y values are modelled as exact rationals (`ℚ`); all claims
  treated here are structural (lengths, index selection, ordering) and do not
  depend on rounding;
- Python `int` is `ℤ` where it can be negative (thresholds) and `ℕ` for
  lengths and indices;
- Python `int(...)` truncation of a non-negative float is `pyInt` (floor);
- code that can raise (`ZeroDivisionError` in `lttb_downsample` and
  `minmax_downsample`, a `ValueError` during dashboard panel creation)
  returns `Option`/`Except`, `none`/`error` marking the raise;
- Python `str` is `List Char` (`PyStr`) where the code calls `.lower()`.
-/

/-- Python `int()` applied to a non-negative rational: floor, then to ℕ. -/
def pyInt (q : ℚ) : ℕ := (⌊q⌋).toNat

/-- Mean of the inclusive slice `l[a : b + 1]` (numpy `np.mean(arr[a:b+1])`),
used by LTTB for the next-bucket anchor point. -/
def sliceMean (l : List ℚ) (a b : ℕ) : ℚ :=
  (((List.range' a (b + 1 - a)).map (fun j => l.getD j 0)).sum) / ((b + 1 - a : ℕ) : ℚ)

/-- Triangle-area measure of `lttb_downsample` (downsampling.py lines 112-115):
`abs((prev_x - next_avg_x) * (y[j] - prev_y) - (prev_x - x[j]) * (next_avg_y - prev_y))`. -/
def triArea (px py ax ay cx cy : ℚ) : ℚ :=
  |(px - ax) * (cy - py) - (px - cx) * (ay - py)|

/-- The inner argmax loop of `lttb_downsample` (lines 106-119): `max_area`
starts at `-1.0`, `max_idx` at `bucket_start` (`init`), and a candidate
replaces the current best exactly when its area is strictly larger. -/
def argmaxArea (f : ℕ → ℚ) (init : ℕ) (cand : List ℕ) : ℕ :=
  (cand.foldl (fun best j => if best.2 < f j then (j, f j) else best) (init, (-1 : ℚ))).1

/-- One iteration of the LTTB bucket loop (lines 89-129): bucket boundaries
from the floating bucket size `bs`, the next-bucket mean anchor, and the
argmax of the triangle area over the current bucket's candidates
`range(bucket_start, min(bucket_end, n - 1))`. `prev` is the index of the
previously selected point. -/
def lttbPick (x y : List ℚ) (bs : ℚ) (n prev i : ℕ) : ℕ :=
  let bStart := pyInt ((i : ℚ) * bs) + 1
  let bEnd := pyInt (((i : ℚ) + 1) * bs) + 1
  let nbEnd := min (pyInt (((i : ℚ) + 2) * bs) + 1) (n - 1)
  let ax := sliceMean x bEnd nbEnd
  let ay := sliceMean y bEnd nbEnd
  argmaxArea
    (fun j => triArea (x.getD prev 0) (y.getD prev 0) ax ay (x.getD j 0) (y.getD j 0))
    bStart (List.range' bStart (min bEnd (n - 1) - bStart))

/-- The LTTB bucket loop over the remaining bucket indices, threading the
previously-selected index exactly as the Python loop threads
`prev_x`/`prev_y`. -/
def lttbSelAux (x y : List ℚ) (bs : ℚ) (n : ℕ) : List ℕ → ℕ → List ℕ
  | [], _ => []
  | i :: rest, prev =>
    let j := lttbPick x y bs n prev i
    j :: lttbSelAux x y bs n rest j

/-- Indices selected by `lttb_downsample` once the guards have passed: the
first point, one pick per interior bucket (`threshold - 2` buckets of
floating size `(n - 2) / (threshold - 2)`), and the last point. -/
def lttbIndices (x y : List ℚ) (t : ℕ) : List ℕ :=
  let n := y.length
  let bs : ℚ := ((n : ℚ) - 2) / ((t : ℚ) - 2)
  0 :: (lttbSelAux x y bs n (List.range (t - 2)) 0 ++ [n - 1])

/-- `lttb_downsample(x, y, threshold)` (downsampling.py lines 13-135).
`none` models the `ZeroDivisionError` raised by
`bucket_size = (n - 2) / (threshold - 2)` when the clamped threshold is 2
(reached for every requested threshold ≤ 2 that passes the guards). -/
def lttb_downsample (x y : List ℚ) (threshold : ℤ) : Option (List ℚ × List ℚ) :=
  if threshold ≤ 0 then some (x, y)
  else if (y.length : ℤ) ≤ threshold then some (x, y)
  else
    let t : ℤ := if threshold < 2 then 2 else threshold
    if t = 2 then none
    else
      some ((lttbIndices x y t.toNat).map (fun i => x.getD i 0),
            (lttbIndices x y t.toNat).map (fun i => y.getD i 0))

/-- Indices kept by `simple_downsample` once the guards have passed:
`np.arange(0, n, step)` with `step = max(1, n // threshold)`, with the last
index force-appended when it is not already present (lines 164-171). -/
def strideIndices (n t : ℕ) : List ℕ :=
  let step := max 1 (n / t)
  let base := (List.range ((n + step - 1) / step)).map (· * step)
  if base.getLast? = some (n - 1) then base else base ++ [n - 1]

/-- `simple_downsample(x, y, threshold)` (downsampling.py lines 138-173). -/
def simple_downsample (x y : List ℚ) (threshold : ℤ) : List ℚ × List ℚ :=
  if threshold ≤ 0 ∨ (y.length : ℤ) ≤ threshold then (x, y)
  else
    ((strideIndices y.length threshold.toNat).map (fun i => x.getD i 0),
     (strideIndices y.length threshold.toNat).map (fun i => y.getD i 0))

/-- First index of the minimum of `y[s:e]`: `s + np.argmin(y_arr[s:e])`.
numpy's argmin keeps the earliest occurrence, as does this fold (a candidate
replaces the best only when strictly smaller). -/
def argminFrom (y : List ℚ) (s e : ℕ) : ℕ :=
  (List.range' s (e - s)).foldl (fun best j => if y.getD j 0 < y.getD best 0 then j else best) s

/-- First index of the maximum of `y[s:e]`: `s + np.argmax(y_arr[s:e])`. -/
def argmaxFrom (y : List ℚ) (s e : ℕ) : ℕ :=
  (List.range' s (e - s)).foldl (fun best j => if y.getD best 0 < y.getD j 0 then j else best) s

/-- One bucket of `minmax_downsample` (downsampling.py lines 210-229):
boundaries `int(i * bucket_size)` and `int((i + 1) * bucket_size)` with
`bucket_size = n / n_buckets`, end clamped to `n`, empty buckets skipped,
and the bucket's argmin/argmax indices emitted earlier-index-first. -/
def bucketPair (y : List ℚ) (n nB i : ℕ) : List ℕ :=
  let s := pyInt ((i : ℚ) * ((n : ℚ) / (nB : ℚ)))
  let e := min (pyInt (((i : ℚ) + 1) * ((n : ℚ) / (nB : ℚ)))) n
  if e ≤ s then []
  else
    let mi := argminFrom y s e
    let ma := argmaxFrom y s e
    if mi ≤ ma then [mi, ma] else [ma, mi]

/-- All indices emitted by the bucket loop of `minmax_downsample`. -/
def minmaxIndices (y : List ℚ) (n nB : ℕ) : List ℕ :=
  (List.range nB).flatMap (fun i => bucketPair y n nB i)

/-- `minmax_downsample(x, y, threshold)` (downsampling.py lines 176-231).
`none` models the `ZeroDivisionError` raised by
`bucket_size = n / n_buckets` when `n_buckets = threshold // 2 = 0`,
reached for `threshold = 1` with `n > 1`. -/
def minmax_downsample (x y : List ℚ) (threshold : ℤ) : Option (List ℚ × List ℚ) :=
  if threshold ≤ 0 ∨ (y.length : ℤ) ≤ threshold then some (x, y)
  else
    let nB := threshold.toNat / 2
    if nB = 0 then none
    else
      some ((minmaxIndices y y.length nB).map (fun i => x.getD i 0),
            (minmaxIndices y y.length nB).map (fun i => y.getD i 0))

/-- The large-dataset fields of `TimeSeriesStyle` (styles/presets.py lines
270-306); the purely visual fields (colors, markers, grid, bands, ...) play
no part in the reduction/rasterization policy and are omitted. -/
structure TimeSeriesStyle where
  auto_downsample : Bool
  downsample_threshold : Option ℤ
  rasterize : Bool
  auto_rasterize : Bool

/-- Modelled from the spec: the reduction-related settings read by
`TimeSeriesChart` (`settings.downsample_threshold` as the global default
threshold, `settings.max_render_points` as the hard cap, and
`settings.auto_rasterize_threshold` as the rasterize trigger). The
`ChartSettings` class in `src/charter/config/settings.py` does not declare
these three fields even though `timeseries.py` reads them, so they are
modelled as abstract integer fields per the spec's ReductionConfig
(`threshold`, `hard_cap`, `rasterize_trigger`). -/
structure ChartSettings where
  downsample_threshold : ℤ
  max_render_points : ℤ
  auto_rasterize_threshold : ℤ

/-- `TimeSeriesChart._get_downsample_threshold` (timeseries.py lines
139-143): the style-level override when present, else the settings value. -/
def getDownsampleThreshold (style : TimeSeriesStyle) (settings : ChartSettings) : ℤ :=
  match style.downsample_threshold with
  | some t => t
  | none => settings.downsample_threshold

/-- `TimeSeriesChart._should_rasterize` (timeseries.py lines 145-151). -/
def shouldRasterize (style : TimeSeriesStyle) (settings : ChartSettings) (nPoints : ℕ) : Bool :=
  if style.rasterize then true
  else if style.auto_rasterize then decide (settings.auto_rasterize_threshold < (nPoints : ℤ))
  else false

/-- `TimeSeriesChart._maybe_downsample` (timeseries.py lines 153-187): skip
when auto-downsampling is off or the effective threshold is ≤ 0, skip when
the series is within the threshold, otherwise call `lttb_downsample` with
`min(threshold, settings.max_render_points)`. (The line-173 size warning is
advisory only and is not part of the returned value.) -/
def maybeDownsample (style : TimeSeriesStyle) (settings : ChartSettings)
    (dates values : List ℚ) : Option (List ℚ × List ℚ) :=
  let threshold := getDownsampleThreshold style settings
  if style.auto_downsample = false ∨ threshold ≤ 0 then some (dates, values)
  else if (values.length : ℤ) ≤ threshold then some (dates, values)
  else lttb_downsample dates values (min threshold settings.max_render_points)

/-- The single-series path of `TimeSeriesChart._render_to_axes_impl`
(timeseries.py lines 87-108): the rasterization flag is computed from
`len(dates)` before any downsampling, then the series is (maybe)
downsampled. -/
def renderSingleSeries (style : TimeSeriesStyle) (settings : ChartSettings)
    (dates values : List ℚ) : Bool × Option (List ℚ × List ℚ) :=
  (shouldRasterize style settings dates.length, maybeDownsample style settings dates values)

/-- A Python string as its character list; `.lower()` is mapped
`Char.toLower`. -/
abbrev PyStr := List Char

/-- Python `str.lower()` for the ASCII names used by the dashboard. -/
def pyLower (s : PyStr) : PyStr := s.map Char.toLower

/-- The fields of `PanelConfig` (styles/dashboard.py) that panel-chart
creation dispatches on; data/labels/grid placement do not affect the
error path modelled here. -/
structure PanelConfig where
  chart_type : PyStr
  style : PyStr

/-- Keys of the `CHART_CLASSES` mapping (dashboard.py lines 25-29). -/
def CHART_CLASSES : List PyStr := ["bar", "line", "timeseries"].map String.toList

/-- Values of the `ChartType` enum (styles/presets.py lines 13-18). -/
def chartTypeValues : List PyStr := ["bar", "pie", "line", "timeseries"].map String.toList

/-- Keys of `BAR_STYLES` (styles/presets.py lines 60-67). -/
def barStyleNames : List PyStr :=
  ["default", "grouped", "stacked", "horizontal", "outlined", "labeled"].map String.toList

/-- Keys of `PIE_STYLES` (styles/presets.py lines 150-221). -/
def pieStyleNames : List PyStr :=
  ["default", "donut", "exploded", "minimal", "detailed", "shadow", "infographic",
   "annotated", "transparent_donut", "table_legend", "table_legend_donut"].map String.toList

/-- Keys of `LINE_STYLES` (styles/presets.py lines 255-263). -/
def lineStyleNames : List PyStr :=
  ["default", "smooth", "stepped", "area", "dotted", "dashed", "markers"].map String.toList

/-- Keys of `TIMESERIES_STYLES` (styles/presets.py lines 310-324). -/
def timeseriesStyleNames : List PyStr :=
  ["default", "area", "trend", "range", "minimal", "large_dataset"].map String.toList

/-- The style table of `StyleRegistry._styles` for one chart type. (The
registry source also references a rose table that is absent from
styles/presets.py; it is unreachable from the dashboard dispatch and not
modelled.) -/
def registryStyleNames (ct : PyStr) : List PyStr :=
  if ct = "bar".toList then barStyleNames
  else if ct = "pie".toList then pieStyleNames
  else if ct = "line".toList then lineStyleNames
  else timeseriesStyleNames

/-- `StyleRegistry.get_style` (styles/registry.py lines 45-80): parse the
chart-type string (ValueError when unknown), then look the lowercased style
name up in that type's table (ValueError when absent). -/
def getStyle (chart_type name : PyStr) : Except String Unit :=
  if pyLower chart_type ∉ chartTypeValues then Except.error "Unknown chart type"
  else if pyLower name ∈ registryStyleNames (pyLower chart_type) then Except.ok ()
  else Except.error "Unknown style"

/-- `DashboardChart._create_panel_chart` (dashboard.py lines 179-210):
reject a lowercased chart type outside `CHART_CLASSES`, then resolve the
style through the registry. -/
def createPanelChart (p : PanelConfig) : Except String Unit :=
  if pyLower p.chart_type ∉ CHART_CLASSES then Except.error "Unknown chart type"
  else getStyle (pyLower p.chart_type) p.style

/-- The panel loop of `DashboardChart._render_sync` (dashboard.py lines
111-158): panels are processed in order; each panel's chart is created
(possibly raising) and then its content is rendered into the figure. The
result is the list of panel positions whose content was rendered, together
with the raised error if the loop aborted. `i` is the position of the first
panel of the remaining list. -/
def renderPanelsAux : List PanelConfig → ℕ → List ℕ × Option String
  | [], _ => ([], none)
  | p :: rest, i =>
    match createPanelChart p with
    | Except.error e => ([], some e)
    | Except.ok _ =>
      let r := renderPanelsAux rest (i + 1)
      (i :: r.1, r.2)

/-- Panel positions rendered by `DashboardChart._render_sync`, with the
aborting error when a panel's chart kind or style is unknown. -/
def renderPanels (panels : List PanelConfig) : List ℕ × Option String :=
  renderPanelsAux panels 0

/-- One step of the shared-legend accumulation (dashboard.py lines 154-158):
a `(label, handle)` pair is appended only when its label has not been seen.
The code keeps two parallel lists `all_handles`/`all_labels`; they are
modelled as one list of pairs. -/
def legendStep {α : Type} (acc : List (String × α)) (e : String × α) : List (String × α) :=
  if e.1 ∈ acc.map Prod.fst then acc else acc ++ [e]

/-- The legend entries accumulated across all panels in panel order
(dashboard.py lines 106-158). -/
def collectLegend {α : Type} (panels : List (List (String × α))) : List (String × α) :=
  panels.foldl (fun acc entries => entries.foldl legendStep acc) []

/-- Keep the first occurrence of each label: the specification-side
description of legend deduplication ("for each label, keep only the first
occurrence encountered"). -/
def firstOcc {α : Type} : List (String × α) → List (String × α)
  | [] => []
  | e :: rest => e :: firstOcc (rest.filter (fun q => decide (q.1 ≠ e.1)))
termination_by l => l.length
decreasing_by
  exact Nat.lt_succ_of_le (List.length_filter_le _ _)

/-- First-seen order on labels alone. -/
def firstSeen : List String → List String
  | [] => []
  | l :: rest => l :: firstSeen (rest.filter (fun q => decide (q ≠ l)))
termination_by l => l.length
decreasing_by
  exact Nat.lt_succ_of_le (List.length_filter_le _ _)

/-- C3 (amended) conclusion at one input: Stride preserves the first and
last point, and LTTB preserves them whenever it does not raise (threshold
at least 3). -/
def c3Prop (x y : List ℚ) (t : ℤ) : Prop :=
  ((simple_downsample x y t).1.head? = x.head? ∧
   (simple_downsample x y t).1.getLast? = x.getLast? ∧
   (simple_downsample x y t).2.head? = y.head? ∧
   (simple_downsample x y t).2.getLast? = y.getLast?) ∧
  (3 ≤ t → ∃ xs ys, lttb_downsample x y t = some (xs, ys) ∧
    xs.head? = x.head? ∧ xs.getLast? = x.getLast? ∧
    ys.head? = y.head? ∧ ys.getLast? = y.getLast?)

/-- C4 (amended) conclusion at one input: the Stride output length lies in
`[target, 2 * target]`. -/
def c4Prop (x y : List ℚ) (t : ℤ) : Prop :=
  t.toNat ≤ (simple_downsample x y t).1.length ∧
  (simple_downsample x y t).1.length ≤ 2 * t.toNat ∧
  t.toNat ≤ (simple_downsample x y t).2.length ∧
  (simple_downsample x y t).2.length ≤ 2 * t.toNat

/-- C5 (amended) conclusion at one input: `minmax_downsample` succeeds with
exactly `2 * (target / 2)` points, and the pair emitted for each bucket
consists of the bucket's first argmin and first argmax index — whose values
are the true minimum and maximum of the bucket — in positional order. -/
def c5Prop (x y : List ℚ) (t : ℤ) : Prop :=
  ∃ ps : List ℚ × List ℚ, minmax_downsample x y t = some ps ∧
    ps.1.length = 2 * (t.toNat / 2) ∧ ps.2.length = 2 * (t.toNat / 2) ∧
    ∀ i, i < t.toNat / 2 →
      (let s := i * y.length / (t.toNat / 2)
       let e := (i + 1) * y.length / (t.toNat / 2)
       let mi := argminFrom y s e
       let ma := argmaxFrom y s e
       s ≤ mi ∧ mi < e ∧ s ≤ ma ∧ ma < e ∧
       (∀ j, s ≤ j → j < e → y.getD mi 0 ≤ y.getD j 0 ∧ y.getD j 0 ≤ y.getD ma 0) ∧
       ps.2.getD (2 * i) 0 = y.getD (min mi ma) 0 ∧
       ps.2.getD (2 * i + 1) 0 = y.getD (max mi ma) 0 ∧
       ps.1.getD (2 * i) 0 = x.getD (min mi ma) 0 ∧
       ps.1.getD (2 * i + 1) 0 = x.getD (max mi ma) 0)

/-- C6 conclusion at one input: all three algorithms return the input
unchanged. -/
def c6Prop (x y : List ℚ) (t : ℤ) : Prop :=
  lttb_downsample x y t = some (x, y) ∧
  simple_downsample x y t = (x, y) ∧
  minmax_downsample x y t = some (x, y)

/-- C8 (amended) conclusion at one input: the dashboard render aborts with
an error, having rendered exactly the panels at positions `0 .. k - 1`. -/
def c8Prop (panels : List PanelConfig) (k : ℕ) : Prop :=
  (renderPanels panels).1 = List.range k ∧ (renderPanels panels).2.isSome = true

/-- C10 conclusion for Stride at one input: the output is the image of the
selected index list, every selected index is in range, and the indices are
strictly increasing. -/
def c10StrideProp (x y : List ℚ) (t : ℤ) : Prop :=
  simple_downsample x y t =
    ((strideIndices y.length t.toNat).map (fun i => x.getD i 0),
     (strideIndices y.length t.toNat).map (fun i => y.getD i 0)) ∧
  (∀ i ∈ strideIndices y.length t.toNat, i < y.length) ∧
  (strideIndices y.length t.toNat).Pairwise (· < ·) ∧
  (x.length = y.length →
    ∀ p ∈ (simple_downsample x y t).1.zip (simple_downsample x y t).2, p ∈ x.zip y)

/-- C10 conclusion for MinMax at one input: output as image of the selected
indices, all in range, non-decreasing (equal neighbours are possible when a
bucket's argmin and argmax coincide). -/
def c10MinmaxProp (x y : List ℚ) (t : ℤ) : Prop :=
  minmax_downsample x y t =
    some ((minmaxIndices y y.length (t.toNat / 2)).map (fun i => x.getD i 0),
          (minmaxIndices y y.length (t.toNat / 2)).map (fun i => y.getD i 0)) ∧
  (∀ i ∈ minmaxIndices y y.length (t.toNat / 2), i < y.length) ∧
  (minmaxIndices y y.length (t.toNat / 2)).Pairwise (· ≤ ·) ∧
  (x.length = y.length →
    ∀ p ∈ ((minmaxIndices y y.length (t.toNat / 2)).map (fun i => x.getD i 0)).zip
            ((minmaxIndices y y.length (t.toNat / 2)).map (fun i => y.getD i 0)),
      p ∈ x.zip y)

/-- C10 conclusion for LTTB at one input: output as image of the selected
indices, all in range, strictly increasing. -/
def c10LttbProp (x y : List ℚ) (t : ℤ) : Prop :=
  lttb_downsample x y t =
    some ((lttbIndices x y t.toNat).map (fun i => x.getD i 0),
          (lttbIndices x y t.toNat).map (fun i => y.getD i 0)) ∧
  (∀ i ∈ lttbIndices x y t.toNat, i < y.length) ∧
  (lttbIndices x y t.toNat).Pairwise (· < ·) ∧
  (x.length = y.length →
    ∀ p ∈ ((lttbIndices x y t.toNat).map (fun i => x.getD i 0)).zip
            ((lttbIndices x y t.toNat).map (fun i => y.getD i 0)),
      p ∈ x.zip y)

/-- Python truncation of a product with a non-negative rational ratio is
natural division. -/
theorem pyInt_natCast_mul_div (i a b : ℕ) :
    pyInt ((i : ℚ) * ((a : ℚ) / (b : ℚ))) = i * a / b := by
  unfold pyInt
  have h : (i : ℚ) * ((a : ℚ) / (b : ℚ)) = ((i * a : ℕ) : ℚ) / ((b : ℕ) : ℚ) := by
    push_cast; ring
  rw [h, Int.floor_toNat, Nat.floor_div_nat, Nat.floor_natCast]

/-- Variant of `pyInt_natCast_mul_div` for the `(i + 1)`-th boundary. -/
theorem pyInt_succ_natCast_mul_div (i a b : ℕ) :
    pyInt (((i : ℚ) + 1) * ((a : ℚ) / (b : ℚ))) = (i + 1) * a / b := by
  have h : ((i : ℚ) + 1) = ((i + 1 : ℕ) : ℚ) := by push_cast; ring
  rw [h, pyInt_natCast_mul_div]

/-- The bucket of `minmax_downsample` with its floating-point boundary
truncations rewritten to natural division. -/
theorem bucketPair_eval (y : List ℚ) (n nB i : ℕ) :
    bucketPair y n nB i =
      if min ((i + 1) * n / nB) n ≤ i * n / nB then []
      else
        if argminFrom y (i * n / nB) (min ((i + 1) * n / nB) n) ≤
            argmaxFrom y (i * n / nB) (min ((i + 1) * n / nB) n) then
          [argminFrom y (i * n / nB) (min ((i + 1) * n / nB) n),
           argmaxFrom y (i * n / nB) (min ((i + 1) * n / nB) n)]
        else
          [argmaxFrom y (i * n / nB) (min ((i + 1) * n / nB) n),
           argminFrom y (i * n / nB) (min ((i + 1) * n / nB) n)] := by
  simp only [bucketPair, pyInt_natCast_mul_div, pyInt_succ_natCast_mul_div]

/-- C1: across every time-series render, `_maybe_downsample` hands the series
to the LTTB reducer exactly when `auto_downsample` is enabled, the effective
threshold (style override, else settings default) is positive, and the series
is longer than that threshold; the target passed to the reducer is
`min(threshold, settings.max_render_points)`. In every other case the series
is returned unchanged. -/
theorem c1_downsample_policy (style : TimeSeriesStyle) (settings : ChartSettings)
    (dates values : List ℚ) :
    maybeDownsample style settings dates values =
      if style.auto_downsample = true ∧ 0 < getDownsampleThreshold style settings ∧
          getDownsampleThreshold style settings < (values.length : ℤ) then
        lttb_downsample dates values
          (min (getDownsampleThreshold style settings) settings.max_render_points)
      else some (dates, values) := by
  unfold maybeDownsample
  cases hA : style.auto_downsample
  · simp [hA]
  · by_cases h1 : getDownsampleThreshold style settings ≤ 0
    · have : ¬ (0 < getDownsampleThreshold style settings) := by omega
      simp [hA, h1, this]
    · by_cases h2 : (values.length : ℤ) ≤ getDownsampleThreshold style settings
      · have : ¬ (getDownsampleThreshold style settings < (values.length : ℤ)) := by omega
        simp [hA, h1, h2, this]
      · simp [hA, h1, h2]
        rw [if_pos ⟨by omega, by omega⟩]

/-- C2: the claim says `lttb_downsample` with `len(input) > target ≥ 1`
returns exactly the clamped target number of points without error; in the
code, a requested threshold of 1 or 2 is clamped to 2 and then
`bucket_size = (n - 2) / (threshold - 2)` raises `ZeroDivisionError`
(modelled as `none`). -/
theorem c2_lttb_zero_division :
    lttb_downsample [0, 1, 2] [0, 1, 2] 2 = none ∧
    lttb_downsample [0, 1, 2] [0, 1, 2] 1 = none := by
  decide

/-- C6: each of the three reduction algorithms returns its input unchanged
whenever the requested target is non-positive or the series is no longer
than the target (which covers the empty series). -/
theorem c6_identity_below_target (x y : List ℚ) (t : ℤ)
    (h : t ≤ 0 ∨ (y.length : ℤ) ≤ t) : c6Prop x y t := by
  unfold c6Prop lttb_downsample simple_downsample minmax_downsample
  refine ⟨?_, ?_, ?_⟩ <;> split_ifs <;> first
  | rfl
  | omega

/-- Witness for C6 at a concrete input. -/
theorem c6_identity_witness : c6Prop [0, 1, 2] [5, 6, 7] 5 :=
  c6_identity_below_target [0, 1, 2] [5, 6, 7] 5 (Or.inr (by decide))

/-- C9: the rasterization flag of a time-series render is computed from the
original, pre-reduction point count `len(dates)` and from the style flags
alone — forced when `rasterize` is set, else on when `auto_rasterize` is set
and the count exceeds the settings trigger — independently of whether the
series is downsampled. -/
theorem c9_rasterize_policy (style : TimeSeriesStyle) (settings : ChartSettings)
    (dates values : List ℚ) :
    (renderSingleSeries style settings dates values).1 =
      (style.rasterize ||
        (style.auto_rasterize &&
          decide (settings.auto_rasterize_threshold < (dates.length : ℤ)))) := by
  unfold renderSingleSeries shouldRasterize
  cases style.rasterize <;> cases style.auto_rasterize <;> simp

/-- C4 counterexample: for 10 points and target 4, `simple_downsample`
returns 6 points, exceeding the claimed `target + 1` bound. -/
theorem c4_stride_length_counterexample :
    (simple_downsample (List.replicate 10 (0 : ℚ)) (List.replicate 10 (0 : ℚ)) 4).2.length
        = 6 ∧
    ¬ ((simple_downsample (List.replicate 10 (0 : ℚ)) (List.replicate 10 (0 : ℚ)) 4).2.length
        ≤ 4 + 1) := by
  decide

/-- C5 counterexample: with `len(input) = 2 > target = 1` the claim demands a
(0-point) result without error, but `n_buckets = 1 // 2 = 0` makes
`bucket_size = n / n_buckets` raise `ZeroDivisionError` (modelled as
`none`). -/
theorem c5_minmax_target_one_counterexample :
    minmax_downsample [0, 1] [0, 1] 1 = none := by
  decide

/-- C3 counterexample: MinMax does not preserve the first input point — for
`y = [1, 0, 2]` with target 2 the single bucket emits its argmin/argmax
points `[0, 2]`, whose first value differs from `y[0] = 1`. -/
theorem c3_minmax_first_point_counterexample :
    minmax_downsample [0, 1, 2] [1, 0, 2] 2 = some ([1, 2], [0, 2]) ∧
    ([1, 0, 2] : List ℚ).head? = some 1 ∧ ((0 : ℚ) ≠ 1) := by
  refine ⟨?_, by decide, by decide⟩
  simp only [minmax_downsample, minmaxIndices, bucketPair_eval]
  decide

/-- Collecting legend entries panel-by-panel is the same as one pass over the
concatenation of all panels' entries, in panel order. -/
theorem collectLegend_eq_foldl_flatten {α : Type} (panels : List (List (String × α))) :
    collectLegend panels = panels.flatten.foldl legendStep [] := by
  unfold collectLegend
  rw [List.foldl_flatten]

/-- Labels survive a filter on the label component. -/
theorem map_fst_filter_ne {α : Type} (e1 : String) (l : List (String × α)) :
    (l.filter (fun q => decide (q.1 ≠ e1))).map Prod.fst =
      (l.map Prod.fst).filter (fun s => decide (s ≠ e1)) := by
  induction l with
  | nil => rfl
  | cons a l ih =>
    rw [List.filter_cons, List.map_cons, List.filter_cons]
    by_cases h : a.1 = e1
    · rw [if_neg (by simp [h]), if_neg (by simp [h]), ih]
    · rw [if_pos (by simp [h]), if_pos (by simp [h]), List.map_cons, ih]

/-- The legend accumulation fold, explained: the accumulator is extended with
the first occurrences of the labels it has not seen yet. -/
theorem foldl_legendStep_eq {α : Type} (l : List (String × α)) : ∀ acc,
    l.foldl legendStep acc =
      acc ++ firstOcc (l.filter (fun e => decide (e.1 ∉ acc.map Prod.fst))) := by
  induction l with
  | nil => intro acc; simp [firstOcc]
  | cons e rest ih =>
    intro acc
    by_cases hmem : e.1 ∈ acc.map Prod.fst
    · have hstep : legendStep acc e = acc := by simp [legendStep, hmem]
      rw [List.foldl_cons, hstep, ih, List.filter_cons]
      simp [hmem]
    · have hstep : legendStep acc e = acc ++ [e] := by simp [legendStep, hmem]
      rw [List.foldl_cons, hstep, ih, List.filter_cons]
      have hkeep : decide (e.1 ∉ acc.map Prod.fst) = true := by simp [hmem]
      rw [if_pos hkeep]
      rw [firstOcc]
      have hfilters :
          rest.filter (fun q => decide (q.1 ∉ (acc ++ [e]).map Prod.fst)) =
            (rest.filter (fun q => decide (q.1 ∉ acc.map Prod.fst))).filter
              (fun q => decide (q.1 ≠ e.1)) := by
        rw [List.filter_filter]
        apply List.filter_congr
        intro a _
        by_cases h1 : a.1 ∈ acc.map Prod.fst <;> by_cases h2 : a.1 = e.1 <;>
          simp [h1, h2, List.map_append]
      rw [hfilters]
      simp

/-- The composed legend is exactly the first occurrence of each label across
all panels. -/
theorem collectLegend_eq_firstOcc {α : Type} (panels : List (List (String × α))) :
    collectLegend panels = firstOcc panels.flatten := by
  rw [collectLegend_eq_foldl_flatten, foldl_legendStep_eq]
  have h : panels.flatten.filter
      (fun e => decide (e.1 ∉ ([] : List (String × α)).map Prod.fst)) = panels.flatten := by
    apply List.filter_eq_self.mpr
    intro a _
    simp
  rw [h, List.nil_append]

/-- Every entry kept by `firstOcc` comes from the input. -/
theorem firstOcc_subset {α : Type} (l : List (String × α)) :
    ∀ p ∈ firstOcc l, p ∈ l := by
  induction l using firstOcc.induct with
  | case1 => intro p hp; simp [firstOcc] at hp
  | case2 e rest ih =>
    intro p hp
    rw [firstOcc] at hp
    rcases List.mem_cons.mp hp with h | h
    · simp [h]
    · have := ih p h
      exact List.mem_cons.mpr (Or.inr (List.mem_of_mem_filter this))

/-- `firstOcc` keeps each label at most once. -/
theorem firstOcc_labels_nodup {α : Type} (l : List (String × α)) :
    ((firstOcc l).map Prod.fst).Nodup := by
  induction l using firstOcc.induct with
  | case1 => simp [firstOcc]
  | case2 e rest ih =>
    rw [firstOcc, List.map_cons]
    refine List.nodup_cons.mpr ⟨?_, ih⟩
    intro hmem
    rcases List.mem_map.mp hmem with ⟨q, hq, hq1⟩
    have hqf := firstOcc_subset _ q hq
    have := List.of_mem_filter hqf
    simp only [decide_eq_true_eq] at this
    exact this hq1

/-- The labels kept by `firstOcc` are the labels in first-seen order. -/
theorem firstOcc_labels_firstSeen {α : Type} (l : List (String × α)) :
    (firstOcc l).map Prod.fst = firstSeen (l.map Prod.fst) := by
  induction l using firstOcc.induct with
  | case1 => simp [firstOcc, firstSeen]
  | case2 e rest ih =>
    rw [firstOcc, List.map_cons, List.map_cons, firstSeen, ih, map_fst_filter_ne]

/-- A filter that removes only elements failing the search test does not
change the result of `find?`. -/
theorem find?_filter_of_imp {α : Type} (l : List α) (p q : α → Bool)
    (h : ∀ a, p a = true → q a = true) :
    (l.filter q).find? p = l.find? p := by
  induction l with
  | nil => rfl
  | cons a l ih =>
    by_cases hp : p a = true
    · rw [List.filter_cons, if_pos (h a hp), List.find?_cons_of_pos _ hp,
        List.find?_cons_of_pos _ hp]
    · have hp' : p a = false := by revert hp; cases p a <;> simp
      by_cases hq : q a = true
      · rw [List.filter_cons, if_pos hq, List.find?_cons_of_neg _ (by simp [hp']),
          List.find?_cons_of_neg _ (by simp [hp'])]
        exact ih
      · rw [List.filter_cons, if_neg hq, List.find?_cons_of_neg _ (by simp [hp'])]
        exact ih

/-- Each entry kept by `firstOcc` is the first entry of the input carrying
its label. -/
theorem firstOcc_find? {α : Type} (l : List (String × α)) :
    ∀ p ∈ firstOcc l, l.find? (fun q => decide (q.1 = p.1)) = some p := by
  induction l using firstOcc.induct with
  | case1 => intro p hp; simp [firstOcc] at hp
  | case2 e rest ih =>
    intro p hp
    rw [firstOcc] at hp
    rcases List.mem_cons.mp hp with h | h
    · subst h
      exact List.find?_cons_of_pos _ (by simp)
    · have hpf := firstOcc_subset _ p h
      have hne : p.1 ≠ e.1 := by
        have := List.of_mem_filter hpf
        simpa using this
      rw [List.find?_cons_of_neg _ (by simp; exact fun hh => hne hh.symm)]
      rw [← find?_filter_of_imp rest (fun q => decide (q.1 = p.1))
          (fun q => decide (q.1 ≠ e.1))]
      · exact ih p h
      · intro a ha
        simp only [decide_eq_true_eq] at ha ⊢
        rw [ha]; exact hne

/-- No label is lost by `firstOcc`. -/
theorem firstOcc_labels_mem {α : Type} (l : List (String × α)) (s : String) :
    s ∈ l.map Prod.fst ↔ s ∈ (firstOcc l).map Prod.fst := by
  induction l using firstOcc.induct with
  | case1 => simp [firstOcc]
  | case2 e rest ih =>
    rw [firstOcc, List.map_cons, List.map_cons]
    by_cases hse : s = e.1
    · simp [hse]
    · simp only [List.mem_cons, hse, false_or]
      rw [← ih, map_fst_filter_ne]
      constructor
      · intro hs
        exact List.mem_filter.mpr ⟨hs, by simpa using hse⟩
      · intro hs
        exact List.mem_of_mem_filter hs

/-- C7: the shared legend composed across panels keeps, in panel order, the
first `(label, handle)` pair for each label: it equals the first-occurrence
sweep of all panels' entries, its labels are duplicate-free and appear in
first-seen order, no label is dropped, and each kept pair is the first pair
of the concatenated panel entries with that label (so the first panel's
handle wins). -/
theorem c7_legend_dedup {α : Type} (panels : List (List (String × α))) :
    collectLegend panels = firstOcc panels.flatten ∧
    ((collectLegend panels).map Prod.fst).Nodup ∧
    (collectLegend panels).map Prod.fst = firstSeen (panels.flatten.map Prod.fst) ∧
    (∀ s, s ∈ panels.flatten.map Prod.fst ↔ s ∈ (collectLegend panels).map Prod.fst) ∧
    (∀ p ∈ collectLegend panels,
      panels.flatten.find? (fun q => decide (q.1 = p.1)) = some p) := by
  have h := collectLegend_eq_firstOcc panels
  refine ⟨h, ?_, ?_, ?_, ?_⟩
  · rw [h]; exact firstOcc_labels_nodup _
  · rw [h]; exact firstOcc_labels_firstSeen _
  · intro s; rw [h]; exact firstOcc_labels_mem _ s
  · rw [h]; exact firstOcc_find? _

/-- The panel loop renders the `k` panels before the first offending one and
then aborts with the raised error. `i` is the grid position of the first
remaining panel. -/
theorem renderPanelsAux_abort : ∀ (k : ℕ) (ps : List PanelConfig) (i : ℕ),
    (∀ p ∈ ps.take k, (createPanelChart p).isOk = true) →
    (∃ e, ((ps.drop k).head?.map createPanelChart) = some (Except.error e)) →
    (renderPanelsAux ps i).1 = (List.range k).map (i + ·) ∧
      (renderPanelsAux ps i).2.isSome = true := by
  intro k
  induction k with
  | zero =>
    intro ps i _ hbad
    rcases hbad with ⟨e, he⟩
    cases ps with
    | nil => simp at he
    | cons p rest =>
      simp only [List.drop_zero, List.head?_cons, Option.map_some] at he
      have hpe : createPanelChart p = Except.error e := by
        exact Option.some.inj he
      simp [renderPanelsAux, hpe]
  | succ k ih =>
    intro ps i hok hbad
    cases ps with
    | nil =>
      rcases hbad with ⟨e, he⟩
      simp at he
    | cons p rest =>
      have hpok : (createPanelChart p).isOk = true := by
        apply hok
        simp [List.take_succ_cons]
      cases hcp : createPanelChart p with
      | error e => rw [hcp] at hpok; simp [Except.isOk, Except.toBool] at hpok
      | ok u =>
        have hok' : ∀ q ∈ rest.take k, (createPanelChart q).isOk = true := by
          intro q hq
          exact hok q (by simp [List.take_succ_cons, hq])
        have hbad' : ∃ e, ((rest.drop k).head?.map createPanelChart) =
            some (Except.error e) := by
          simpa [List.drop_succ_cons] using hbad
        have hrec := ih rest (i + 1) hok' hbad'
        simp only [renderPanelsAux, hcp]
        refine ⟨?_, hrec.2⟩
        rw [hrec.1, List.range_succ_eq_map, List.map_cons, List.map_map]
        congr 1
        apply List.map_congr_left
        intro a _
        simp only [Function.comp_apply, Nat.succ_eq_add_one]
        omega

/-- C8 (amended): when the panels before position `k` all resolve and the
panel at position `k` has an unknown chart kind or style name, the dashboard
render raises the error at panel `k` — but the panels at positions
`0 .. k - 1` have already been rendered into the figure by then, so content
is partially drawn whenever `k > 0` (the figure is, however, never
returned). -/
theorem c8_abort_at_offending_panel (ps : List PanelConfig) (k : ℕ)
    (hok : ∀ p ∈ ps.take k, (createPanelChart p).isOk = true)
    (hbad : ∃ e, ((ps.drop k).head?.map createPanelChart) = some (Except.error e)) :
    c8Prop ps k := by
  have h := renderPanelsAux_abort k ps 0 hok hbad
  unfold c8Prop renderPanels
  refine ⟨?_, h.2⟩
  rw [h.1]
  have hmap : (List.range k).map (0 + ·) = (List.range k).map id :=
    List.map_congr_left (fun a _ => Nat.zero_add a)
  rw [hmap, List.map_id]

/-- C8 counterexample: a dashboard whose second panel has an unknown chart
kind raises, but only after the first panel's content has been rendered into
the figure — contradicting "the error is reported before any panel content
is rendered". -/
theorem c8_partial_render_counterexample :
    (renderPanels [⟨"bar".toList, "default".toList⟩,
                   ⟨"candlestick".toList, "default".toList⟩]).2.isSome = true ∧
    (renderPanels [⟨"bar".toList, "default".toList⟩,
                   ⟨"candlestick".toList, "default".toList⟩]).1 = [0] := by
  decide

/-- Witness for C8 (amended) at a concrete input: an unknown style name in
the second panel aborts the render after panel 0 was drawn. -/
theorem c8_abort_witness :
    c8Prop [⟨"line".toList, "default".toList⟩, ⟨"bar".toList, "neon".toList⟩] 1 :=
  c8_abort_at_offending_panel _ 1 (by decide) ⟨"Unknown style", rfl⟩

/-- Bounds on the stride sample count `ceil(n / step) = (n + step - 1) / step`
written with `step = s + 1`. -/
theorem stride_count_bounds (n t s : ℕ) (ht : 1 ≤ t)
    (hA1 : t * (s + 1) ≤ n) (hA2 : n < t * (s + 1) + t) :
    t ≤ (n + s) / (s + 1) ∧ (n + s) / (s + 1) < 2 * t := by
  have h1 : t * (s + 1) ≤ n + s := le_trans hA1 (Nat.le_add_right _ _)
  have hst : s ≤ t * s := Nat.le_mul_of_pos_left s (by omega)
  have h2 : n + s < 2 * t * (s + 1) := by nlinarith
  exact ⟨(Nat.le_div_iff_mul_le (by omega)).mpr h1, (Nat.div_lt_iff_lt_mul (by omega)).mpr h2⟩

/-- Every stride multiple below the sample count stays inside the series. -/
theorem stride_elem_lt (n s k : ℕ) (hk : k < (n + s) / (s + 1)) : k * (s + 1) < n := by
  have h1 : k + 1 ≤ (n + s) / (s + 1) := hk
  have h2 : (k + 1) * (s + 1) ≤ n + s := (Nat.le_div_iff_mul_le (by omega)).mp h1
  nlinarith

/-- Structure of the index list of `simple_downsample` for a reducing call:
first index 0, last index `n - 1`, between `t` and `2 t` indices, all in
range and strictly increasing. -/
theorem strideIndices_spec (n t : ℕ) (ht : 1 ≤ t) (hn : t < n) :
    (strideIndices n t).head? = some 0 ∧
    (strideIndices n t).getLast? = some (n - 1) ∧
    t ≤ (strideIndices n t).length ∧ (strideIndices n t).length ≤ 2 * t ∧
    (∀ i ∈ strideIndices n t, i < n) ∧
    (strideIndices n t).Pairwise (· < ·) := by
  have htn : t ≤ n := le_of_lt hn
  have hstep1 : 1 ≤ n / t := (Nat.one_le_div_iff (by omega)).mpr htn
  obtain ⟨s, hs⟩ : ∃ s, n / t = s + 1 := ⟨n / t - 1, by omega⟩
  have hmax : max 1 (n / t) = n / t := max_eq_right hstep1
  have hA1 : t * (s + 1) ≤ n := by
    have h := Nat.div_mul_le_self n t
    rw [hs] at h
    calc t * (s + 1) = (s + 1) * t := Nat.mul_comm _ _
    _ ≤ n := h
  have hA2 : n < t * (s + 1) + t := by
    have h := Nat.div_add_mod n t
    have h2 := Nat.mod_lt n (show 0 < t by omega)
    rw [hs] at h
    omega
  have hcount : n + (s + 1) - 1 = n + s := by omega
  have hmax' : max 1 (s + 1) = s + 1 := max_eq_right (by omega)
  simp only [strideIndices, hs, hmax', hcount]
  have hmb := stride_count_bounds n t s ht hA1 hA2
  set m := (n + s) / (s + 1) with hm
  have hm1 : 1 ≤ m := le_trans ht hmb.1
  set base := (List.range m).map (· * (s + 1)) with hbase
  have hbase_len : base.length = m := by
    rw [hbase, List.length_map, List.length_range]
  have hbase_head : base.head? = some 0 := by
    obtain ⟨m', hm'⟩ : ∃ m', m = m' + 1 := ⟨m - 1, by omega⟩
    rw [hbase, List.head?_map, hm', List.range_succ_eq_map]
    simp
  have hbase_last : base.getLast? = some ((m - 1) * (s + 1)) := by
    obtain ⟨m', hm'⟩ : ∃ m', m = m' + 1 := ⟨m - 1, by omega⟩
    rw [hbase, List.getLast?_map, hm', List.range_succ, List.getLast?_concat]
    simp [hm']
  have hbase_elem : ∀ i ∈ base, i < n := by
    intro i hi
    rw [hbase] at hi
    rcases List.mem_map.mp hi with ⟨k, hk, rfl⟩
    exact stride_elem_lt n s k (hm ▸ List.mem_range.mp hk)
  have hbase_pair : base.Pairwise (· < ·) := by
    rw [hbase, List.pairwise_map]
    exact (List.pairwise_lt_range m).imp
      (fun hab => (Nat.mul_lt_mul_right (by omega)).mpr hab)
  have hlast_le : (m - 1) * (s + 1) ≤ n - 1 := by
    have h := stride_elem_lt n s (m - 1) (by omega)
    omega
  by_cases hif : base.getLast? = some (n - 1)
  · rw [if_pos hif]
    exact ⟨hbase_head, hif, by omega, by omega, hbase_elem, hbase_pair⟩
  · rw [if_neg hif]
    have hne : (m - 1) * (s + 1) ≠ n - 1 := by
      intro hcontra
      exact hif (by rw [hbase_last, hcontra])
    have helem_lt : ∀ i ∈ base, i < n - 1 := by
      intro i hi
      rcases List.mem_map.mp (hbase ▸ hi) with ⟨k, hk, rfl⟩
      have hk' : k ≤ m - 1 := by
        have := List.mem_range.mp hk
        omega
      have hmono : k * (s + 1) ≤ (m - 1) * (s + 1) := Nat.mul_le_mul_right _ hk'
      omega
    refine ⟨?_, List.getLast?_concat _, ?_, ?_, ?_, ?_⟩
    · rw [List.head?_append, hbase_head]
      rfl
    · rw [List.length_append, hbase_len]
      omega
    · rw [List.length_append, hbase_len]
      simp only [List.length_cons, List.length_nil]
      omega
    · intro i hi
      rcases List.mem_append.mp hi with h | h
      · exact hbase_elem i h
      · have : i = n - 1 := by simpa using h
        omega
    · rw [List.pairwise_append]
      refine ⟨hbase_pair, by simp, ?_⟩
      intro a ha b hb
      have : b = n - 1 := by simpa using hb
      rw [this]
      exact helem_lt a ha

/-- The head of a non-empty list, in `getD` form. -/
theorem head?_eq_getD (l : List ℚ) (hl : 0 < l.length) : l.head? = some (l.getD 0 0) := by
  rw [List.head?_eq_getElem?, List.getElem?_eq_getElem hl, List.getD_eq_getElem l 0 hl]

/-- The last element of a non-empty list, in `getD` form. -/
theorem getLast?_eq_getD (l : List ℚ) (hl : 0 < l.length) :
    l.getLast? = some (l.getD (l.length - 1) 0) := by
  have h : l.length - 1 < l.length := by omega
  rw [List.getLast?_eq_getElem?, List.getElem?_eq_getElem h, List.getD_eq_getElem l 0 h]

/-- Sampling both coordinate lists through one in-range index list yields
pairs of the original series. -/
theorem mem_zip_of_map_indices (x y : List ℚ) (idxs : List ℕ) (hxy : x.length = y.length)
    (hb : ∀ i ∈ idxs, i < y.length) :
    ∀ p ∈ (idxs.map (fun i => x.getD i 0)).zip (idxs.map (fun i => y.getD i 0)),
      p ∈ x.zip y := by
  intro p hp
  rw [List.zip_map'] at hp
  rcases List.mem_map.mp hp with ⟨i, hi, rfl⟩
  have hiy := hb i hi
  have hix : i < x.length := by omega
  have hz : i < (x.zip y).length := by
    rw [List.length_zip]
    exact lt_min hix hiy
  have hmem := List.getElem_mem hz
  have hpair : (x.zip y)[i] = (x.getD i 0, y.getD i 0) := by
    rw [List.getElem_zip, List.getD_eq_getElem x 0 hix, List.getD_eq_getElem y 0 hiy]
  rw [hpair] at hmem
  exact hmem

/-- The reducing branch of `simple_downsample`, exposed. -/
theorem simple_downsample_eq (x y : List ℚ) (t : ℤ) (h1 : 1 ≤ t) (hn : t < (y.length : ℤ)) :
    simple_downsample x y t =
      ((strideIndices y.length t.toNat).map (fun i => x.getD i 0),
       (strideIndices y.length t.toNat).map (fun i => y.getD i 0)) := by
  unfold simple_downsample
  rw [if_neg (by push_neg; omega)]

/-- C4 (amended): for every reducing call, the Stride output length lies in
`[target, 2 * target]` (the claimed upper bound `target + 1` fails; see the
counterexample). -/
theorem c4_stride_length_amended (x y : List ℚ) (t : ℤ)
    (h1 : 1 ≤ t) (hn : t < (y.length : ℤ)) : c4Prop x y t := by
  have ht : 1 ≤ t.toNat := by omega
  have hn' : t.toNat < y.length := by omega
  have hs := strideIndices_spec y.length t.toNat ht hn'
  unfold c4Prop
  rw [simple_downsample_eq x y t h1 hn]
  simp only [List.length_map]
  exact ⟨hs.2.2.1, hs.2.2.2.1, hs.2.2.1, hs.2.2.2.1⟩

/-- Witness for C4 (amended) at the counterexample input: 6 ∈ [4, 8]. -/
theorem c4_stride_length_witness :
    c4Prop (List.replicate 10 (0 : ℚ)) (List.replicate 10 (0 : ℚ)) 4 :=
  c4_stride_length_amended _ _ 4 (by decide) (by decide)

/-- Stride part of C3: first and last point are preserved. -/
theorem c3_stride_first_last (x y : List ℚ) (t : ℤ) (hxy : x.length = y.length)
    (h1 : 1 ≤ t) (hn : t < (y.length : ℤ)) :
    (simple_downsample x y t).1.head? = x.head? ∧
    (simple_downsample x y t).1.getLast? = x.getLast? ∧
    (simple_downsample x y t).2.head? = y.head? ∧
    (simple_downsample x y t).2.getLast? = y.getLast? := by
  have ht : 1 ≤ t.toNat := by omega
  have hn' : t.toNat < y.length := by omega
  have hs := strideIndices_spec y.length t.toNat ht hn'
  have hylen : 0 < y.length := by omega
  have hxlen : 0 < x.length := by omega
  rw [simple_downsample_eq x y t h1 hn]
  refine ⟨?_, ?_, ?_, ?_⟩
  · rw [List.head?_map, hs.1, head?_eq_getD x hxlen]
    rfl
  · rw [List.getLast?_map, hs.2.1, getLast?_eq_getD x hxlen, hxy]
    rfl
  · rw [List.head?_map, hs.1, head?_eq_getD y hylen]
    rfl
  · rw [List.getLast?_map, hs.2.1, getLast?_eq_getD y hylen]
    rfl

/-- Stride part of C10. -/
theorem c10_stride_part (x y : List ℚ) (t : ℤ)
    (h1 : 1 ≤ t) (hn : t < (y.length : ℤ)) : c10StrideProp x y t := by
  have ht : 1 ≤ t.toNat := by omega
  have hn' : t.toNat < y.length := by omega
  have hs := strideIndices_spec y.length t.toNat ht hn'
  have hrepr := simple_downsample_eq x y t h1 hn
  refine ⟨hrepr, hs.2.2.2.2.1, hs.2.2.2.2.2, ?_⟩
  intro hxy p hp
  rw [hrepr] at hp
  exact mem_zip_of_map_indices x y _ hxy hs.2.2.2.2.1 p hp

/-- Specification of the argmin fold: the result is the start value or a
scanned index, and its value is minimal among both. -/
theorem argmin_fold_spec (y : List ℚ) : ∀ (L : List ℕ) (b : ℕ),
    ((L.foldl (fun best j => if y.getD j 0 < y.getD best 0 then j else best) b) = b ∨
      (L.foldl (fun best j => if y.getD j 0 < y.getD best 0 then j else best) b) ∈ L) ∧
    y.getD (L.foldl (fun best j => if y.getD j 0 < y.getD best 0 then j else best) b) 0 ≤
      y.getD b 0 ∧
    ∀ j ∈ L,
      y.getD (L.foldl (fun best j => if y.getD j 0 < y.getD best 0 then j else best) b) 0 ≤
        y.getD j 0 := by
  intro L
  induction L with
  | nil => exact fun b => ⟨Or.inl rfl, le_refl _, fun j hj => absurd hj (List.not_mem_nil j)⟩
  | cons a L ih =>
    intro b
    rw [List.foldl_cons]
    obtain ⟨h1, h2, h3⟩ := ih (if y.getD a 0 < y.getD b 0 then a else b)
    have hb' : (if y.getD a 0 < y.getD b 0 then a else b) = a ∨
        (if y.getD a 0 < y.getD b 0 then a else b) = b := by
      split_ifs <;> simp
    have hvb : y.getD (if y.getD a 0 < y.getD b 0 then a else b) 0 ≤ y.getD b 0 := by
      split_ifs with hc
      · exact le_of_lt hc
      · exact le_refl _
    have hva : y.getD (if y.getD a 0 < y.getD b 0 then a else b) 0 ≤ y.getD a 0 := by
      split_ifs with hc
      · exact le_refl _
      · exact not_lt.mp hc
    refine ⟨?_, le_trans h2 hvb, ?_⟩
    · rcases h1 with h | h
      · rcases hb' with hb | hb
        · rw [h, hb]; exact Or.inr (List.mem_cons_self a L)
        · rw [h, hb]; exact Or.inl rfl
      · exact Or.inr (List.mem_cons_of_mem a h)
    · intro j hj
      rcases List.mem_cons.mp hj with h | h
      · rw [h]; exact le_trans h2 hva
      · exact h3 j h

/-- Specification of the argmax fold. -/
theorem argmax_fold_spec (y : List ℚ) : ∀ (L : List ℕ) (b : ℕ),
    ((L.foldl (fun best j => if y.getD best 0 < y.getD j 0 then j else best) b) = b ∨
      (L.foldl (fun best j => if y.getD best 0 < y.getD j 0 then j else best) b) ∈ L) ∧
    y.getD b 0 ≤
      y.getD (L.foldl (fun best j => if y.getD best 0 < y.getD j 0 then j else best) b) 0 ∧
    ∀ j ∈ L,
      y.getD j 0 ≤
        y.getD (L.foldl (fun best j => if y.getD best 0 < y.getD j 0 then j else best) b) 0 := by
  intro L
  induction L with
  | nil => exact fun b => ⟨Or.inl rfl, le_refl _, fun j hj => absurd hj (List.not_mem_nil j)⟩
  | cons a L ih =>
    intro b
    rw [List.foldl_cons]
    obtain ⟨h1, h2, h3⟩ := ih (if y.getD b 0 < y.getD a 0 then a else b)
    have hb' : (if y.getD b 0 < y.getD a 0 then a else b) = a ∨
        (if y.getD b 0 < y.getD a 0 then a else b) = b := by
      split_ifs <;> simp
    have hvb : y.getD b 0 ≤ y.getD (if y.getD b 0 < y.getD a 0 then a else b) 0 := by
      split_ifs with hc
      · exact le_of_lt hc
      · exact le_refl _
    have hva : y.getD a 0 ≤ y.getD (if y.getD b 0 < y.getD a 0 then a else b) 0 := by
      split_ifs with hc
      · exact le_refl _
      · exact not_lt.mp hc
    refine ⟨?_, le_trans hvb h2, ?_⟩
    · rcases h1 with h | h
      · rcases hb' with hb | hb
        · rw [h, hb]; exact Or.inr (List.mem_cons_self a L)
        · rw [h, hb]; exact Or.inl rfl
      · exact Or.inr (List.mem_cons_of_mem a h)
    · intro j hj
      rcases List.mem_cons.mp hj with h | h
      · rw [h]; exact le_trans hva h2
      · exact h3 j h

/-- The first-argmin of a non-empty slice lies in the slice and minimizes its
values. -/
theorem argminFrom_spec (y : List ℚ) (s e : ℕ) (h : s < e) :
    s ≤ argminFrom y s e ∧ argminFrom y s e < e ∧
    ∀ j, s ≤ j → j < e → y.getD (argminFrom y s e) 0 ≤ y.getD j 0 := by
  unfold argminFrom
  obtain ⟨h1, _, h3⟩ := argmin_fold_spec y (List.range' s (e - s)) s
  have hb : ∀ r, r = s ∨ r ∈ List.range' s (e - s) → s ≤ r ∧ r < e := by
    intro r hr
    rcases hr with hr | hr
    · omega
    · have := List.mem_range'_1.mp hr
      omega
  obtain ⟨hl, hu⟩ := hb _ h1
  refine ⟨hl, hu, ?_⟩
  intro j hj1 hj2
  exact h3 j (List.mem_range'_1.mpr ⟨hj1, by omega⟩)

/-- The first-argmax of a non-empty slice lies in the slice and maximizes its
values. -/
theorem argmaxFrom_spec (y : List ℚ) (s e : ℕ) (h : s < e) :
    s ≤ argmaxFrom y s e ∧ argmaxFrom y s e < e ∧
    ∀ j, s ≤ j → j < e → y.getD j 0 ≤ y.getD (argmaxFrom y s e) 0 := by
  unfold argmaxFrom
  obtain ⟨h1, _, h3⟩ := argmax_fold_spec y (List.range' s (e - s)) s
  have hb : ∀ r, r = s ∨ r ∈ List.range' s (e - s) → s ≤ r ∧ r < e := by
    intro r hr
    rcases hr with hr | hr
    · omega
    · have := List.mem_range'_1.mp hr
      omega
  obtain ⟨hl, hu⟩ := hb _ h1
  refine ⟨hl, hu, ?_⟩
  intro j hj1 hj2
  exact h3 j (List.mem_range'_1.mpr ⟨hj1, by omega⟩)

/-- MinMax bucket upper boundary stays inside the series. -/
theorem minmax_bucket_le (n nB i : ℕ) (hnB : 0 < nB) (hi : i < nB) :
    (i + 1) * n / nB ≤ n := by
  have h1 : (i + 1) * n ≤ nB * n := Nat.mul_le_mul_right n hi
  calc (i + 1) * n / nB ≤ nB * n / nB := Nat.div_le_div_right h1
  _ = n := Nat.mul_div_cancel_left n hnB

/-- Each MinMax bucket holds at least two candidates when `n ≥ 2 nB + 1`. -/
theorem minmax_bucket_wide (n nB i : ℕ) (hnB : 0 < nB) (hn : 2 * nB + 1 ≤ n) :
    i * n / nB + 2 ≤ (i + 1) * n / nB := by
  have h1 : i * n + nB * 2 ≤ (i + 1) * n := by nlinarith
  have h2 : (i * n + nB * 2) / nB = i * n / nB + 2 := Nat.add_mul_div_left _ _ hnB
  calc i * n / nB + 2 = (i * n + nB * 2) / nB := h2.symm
  _ ≤ (i + 1) * n / nB := Nat.div_le_div_right h1

/-- In a reducing MinMax call, no bucket is skipped: each emits exactly its
argmin and argmax indices, earlier index first. -/
theorem bucketPair_eq_pair (y : List ℚ) (n nB i : ℕ) (hnB : 0 < nB)
    (hn : 2 * nB + 1 ≤ n) (hi : i < nB) :
    bucketPair y n nB i =
      [min (argminFrom y (i * n / nB) ((i + 1) * n / nB))
           (argmaxFrom y (i * n / nB) ((i + 1) * n / nB)),
       max (argminFrom y (i * n / nB) ((i + 1) * n / nB))
           (argmaxFrom y (i * n / nB) ((i + 1) * n / nB))] := by
  rw [bucketPair_eval]
  have hB1 : (i + 1) * n / nB ≤ n := minmax_bucket_le n nB i hnB hi
  have hB2 : i * n / nB + 2 ≤ (i + 1) * n / nB := minmax_bucket_wide n nB i hnB hn
  rw [min_eq_left hB1, if_neg (by omega)]
  by_cases hc : argminFrom y (i * n / nB) ((i + 1) * n / nB) ≤
      argmaxFrom y (i * n / nB) ((i + 1) * n / nB)
  · rw [if_pos hc, min_eq_left hc, max_eq_right hc]
  · rw [if_neg hc, min_eq_right (by omega), max_eq_left (by omega)]

/-- Length of a flatMap over `range` whose pieces all have two elements. -/
theorem flatMap_range_two_length (f : ℕ → List ℕ) (k : ℕ)
    (hf : ∀ i < k, (f i).length = 2) : ((List.range k).flatMap f).length = 2 * k := by
  induction k with
  | zero => rfl
  | succ m ih =>
    rw [List.range_succ, List.flatMap_append, List.length_append,
      ih (fun i hi => hf i (by omega))]
    simp only [List.flatMap_cons, List.flatMap_nil, List.append_nil]
    have h2 := hf m (by omega)
    omega

/-- Position `2 i + j` of such a flatMap reads position `j` of piece `i`. -/
theorem flatMap_range_two_getElem? (f : ℕ → List ℕ) (k : ℕ)
    (hf : ∀ i < k, (f i).length = 2) (i : ℕ) (hi : i < k) (j : ℕ) (hj : j < 2) :
    ((List.range k).flatMap f)[2 * i + j]? = (f i)[j]? := by
  induction k with
  | zero => omega
  | succ m ih =>
    rw [List.range_succ, List.flatMap_append]
    simp only [List.flatMap_cons, List.flatMap_nil, List.append_nil]
    have hlen : ((List.range m).flatMap f).length = 2 * m :=
      flatMap_range_two_length f m (fun i' hi' => hf i' (by omega))
    by_cases him : i < m
    · rw [List.getElem?_append_left (by omega)]
      exact ih (fun i' hi' => hf i' (by omega)) him
    · have hieq : i = m := by omega
      subst hieq
      rw [List.getElem?_append_right (by omega), hlen]
      congr 1
      omega

/-- Bounds and ordering for the indices emitted by the MinMax bucket loop,
bucket by bucket: every index of the suffix starting at bucket `a` is at
least that bucket's start, stays below `n`, and the whole suffix is
non-decreasing. -/
theorem minmax_flat_sorted_aux (y : List ℚ) (n nB : ℕ) (hnB : 0 < nB)
    (hn : 2 * nB + 1 ≤ n) : ∀ (k a : ℕ), a + k ≤ nB →
    (∀ j ∈ (List.range' a k).flatMap (fun i => bucketPair y n nB i),
      a * n / nB ≤ j ∧ j < n) ∧
    ((List.range' a k).flatMap (fun i => bucketPair y n nB i)).Pairwise (· ≤ ·) := by
  intro k
  induction k with
  | zero =>
    intro a _
    constructor
    · intro j hj; simp at hj
    · simp
  | succ m ih =>
    intro a hak
    have ha : a < nB := by omega
    have hpair := bucketPair_eq_pair y n nB a hnB hn ha
    have hwide := minmax_bucket_wide n nB a hnB hn
    have hle := minmax_bucket_le n nB a hnB ha
    have hmi := argminFrom_spec y (a * n / nB) ((a + 1) * n / nB) (by omega)
    have hma := argmaxFrom_spec y (a * n / nB) ((a + 1) * n / nB) (by omega)
    obtain ⟨ihb, ihp⟩ := ih (a + 1) (by omega)
    rw [List.range'_succ, List.flatMap_cons]
    have hpair_mem : ∀ u ∈ bucketPair y n nB a,
        a * n / nB ≤ u ∧ u < (a + 1) * n / nB := by
      intro u hu
      rw [hpair] at hu
      rcases List.mem_cons.mp hu with h | h
      · rw [h]; constructor
        · exact le_min hmi.1 hma.1
        · exact min_lt_iff.mpr (Or.inl hmi.2.1)
      · have : u = max (argminFrom y (a * n / nB) ((a + 1) * n / nB))
            (argmaxFrom y (a * n / nB) ((a + 1) * n / nB)) := by simpa using h
        rw [this]; constructor
        · exact le_max_iff.mpr (Or.inl hmi.1)
        · exact max_lt hmi.2.1 hma.2.1
    constructor
    · intro j hj
      rcases List.mem_append.mp hj with h | h
      · obtain ⟨h1, h2⟩ := hpair_mem j h
        exact ⟨h1, by omega⟩
      · obtain ⟨h1, h2⟩ := ihb j h
        refine ⟨le_trans ?_ h1, h2⟩
        exact Nat.div_le_div_right (by nlinarith)
    · rw [List.pairwise_append]
      refine ⟨?_, ihp, ?_⟩
      · rw [hpair]
        refine List.pairwise_cons.mpr ⟨?_, by simp⟩
        intro b hb
        have : b = max (argminFrom y (a * n / nB) ((a + 1) * n / nB))
            (argmaxFrom y (a * n / nB) ((a + 1) * n / nB)) := by simpa using hb
        rw [this]
        exact min_le_max
      · intro u hu v hv
        have h1 := (hpair_mem u hu).2
        have h2 := (ihb v hv).1
        omega

/-- The reducing branch of `minmax_downsample`, exposed. -/
theorem minmax_downsample_eq (x y : List ℚ) (t : ℤ) (h2 : 2 ≤ t)
    (hn : t < (y.length : ℤ)) :
    minmax_downsample x y t =
      some ((minmaxIndices y y.length (t.toNat / 2)).map (fun i => x.getD i 0),
            (minmaxIndices y y.length (t.toNat / 2)).map (fun i => y.getD i 0)) := by
  unfold minmax_downsample
  rw [if_neg (by push_neg; omega), if_neg (show ¬ t.toNat / 2 = 0 by omega)]

/-- Per-bucket content of a reducing MinMax call: the bucket's argmin/argmax
land inside the bucket, minimize/maximize its values, and the output pair at
positions `2 i` and `2 i + 1` carries exactly those two points, earlier
index first. -/
theorem minmax_bucket_values (x y : List ℚ) (t : ℤ) (h2 : 2 ≤ t)
    (hn : t < (y.length : ℤ)) (i : ℕ) (hi : i < t.toNat / 2) :
    i * y.length / (t.toNat / 2) ≤
      argminFrom y (i * y.length / (t.toNat / 2)) ((i + 1) * y.length / (t.toNat / 2)) ∧
    argminFrom y (i * y.length / (t.toNat / 2)) ((i + 1) * y.length / (t.toNat / 2)) <
      (i + 1) * y.length / (t.toNat / 2) ∧
    i * y.length / (t.toNat / 2) ≤
      argmaxFrom y (i * y.length / (t.toNat / 2)) ((i + 1) * y.length / (t.toNat / 2)) ∧
    argmaxFrom y (i * y.length / (t.toNat / 2)) ((i + 1) * y.length / (t.toNat / 2)) <
      (i + 1) * y.length / (t.toNat / 2) ∧
    (∀ j, i * y.length / (t.toNat / 2) ≤ j → j < (i + 1) * y.length / (t.toNat / 2) →
      y.getD (argminFrom y (i * y.length / (t.toNat / 2))
        ((i + 1) * y.length / (t.toNat / 2))) 0 ≤ y.getD j 0 ∧
      y.getD j 0 ≤ y.getD (argmaxFrom y (i * y.length / (t.toNat / 2))
        ((i + 1) * y.length / (t.toNat / 2))) 0) ∧
    ((minmaxIndices y y.length (t.toNat / 2)).map (fun i => y.getD i 0)).getD (2 * i) 0 =
      y.getD (min
        (argminFrom y (i * y.length / (t.toNat / 2)) ((i + 1) * y.length / (t.toNat / 2)))
        (argmaxFrom y (i * y.length / (t.toNat / 2)) ((i + 1) * y.length / (t.toNat / 2)))) 0 ∧
    ((minmaxIndices y y.length (t.toNat / 2)).map (fun i => y.getD i 0)).getD (2 * i + 1) 0 =
      y.getD (max
        (argminFrom y (i * y.length / (t.toNat / 2)) ((i + 1) * y.length / (t.toNat / 2)))
        (argmaxFrom y (i * y.length / (t.toNat / 2)) ((i + 1) * y.length / (t.toNat / 2)))) 0 ∧
    ((minmaxIndices y y.length (t.toNat / 2)).map (fun i => x.getD i 0)).getD (2 * i) 0 =
      x.getD (min
        (argminFrom y (i * y.length / (t.toNat / 2)) ((i + 1) * y.length / (t.toNat / 2)))
        (argmaxFrom y (i * y.length / (t.toNat / 2)) ((i + 1) * y.length / (t.toNat / 2)))) 0 ∧
    ((minmaxIndices y y.length (t.toNat / 2)).map (fun i => x.getD i 0)).getD (2 * i + 1) 0 =
      x.getD (max
        (argminFrom y (i * y.length / (t.toNat / 2)) ((i + 1) * y.length / (t.toNat / 2)))
        (argmaxFrom y (i * y.length / (t.toNat / 2)) ((i + 1) * y.length / (t.toNat / 2)))) 0 := by
  have hnB : 0 < t.toNat / 2 := by omega
  have hn2 : 2 * (t.toNat / 2) + 1 ≤ y.length := by omega
  have hwide := minmax_bucket_wide y.length (t.toNat / 2) i hnB hn2
  have hse : i * y.length / (t.toNat / 2) < (i + 1) * y.length / (t.toNat / 2) := by omega
  have hmi := argminFrom_spec y (i * y.length / (t.toNat / 2))
    ((i + 1) * y.length / (t.toNat / 2)) hse
  have hma := argmaxFrom_spec y (i * y.length / (t.toNat / 2))
    ((i + 1) * y.length / (t.toNat / 2)) hse
  have hf : ∀ i' < t.toNat / 2,
      (bucketPair y y.length (t.toNat / 2) i').length = 2 := by
    intro i' hi'
    rw [bucketPair_eq_pair y y.length (t.toNat / 2) i' hnB hn2 hi']
    rfl
  have hidx0 : (minmaxIndices y y.length (t.toNat / 2))[2 * i]? =
      some (min
        (argminFrom y (i * y.length / (t.toNat / 2)) ((i + 1) * y.length / (t.toNat / 2)))
        (argmaxFrom y (i * y.length / (t.toNat / 2)) ((i + 1) * y.length / (t.toNat / 2)))) := by
    unfold minmaxIndices
    have h := flatMap_range_two_getElem? (fun i' => bucketPair y y.length (t.toNat / 2) i')
      (t.toNat / 2) hf i hi 0 (by omega)
    have h' : ((List.range (t.toNat / 2)).flatMap
        fun i' => bucketPair y y.length (t.toNat / 2) i')[2 * i]? =
        (bucketPair y y.length (t.toNat / 2) i)[0]? := h
    rw [h', bucketPair_eq_pair y y.length (t.toNat / 2) i hnB hn2 hi]
    rfl
  have hidx1 : (minmaxIndices y y.length (t.toNat / 2))[2 * i + 1]? =
      some (max
        (argminFrom y (i * y.length / (t.toNat / 2)) ((i + 1) * y.length / (t.toNat / 2)))
        (argmaxFrom y (i * y.length / (t.toNat / 2)) ((i + 1) * y.length / (t.toNat / 2)))) := by
    unfold minmaxIndices
    have h := flatMap_range_two_getElem? (fun i' => bucketPair y y.length (t.toNat / 2) i')
      (t.toNat / 2) hf i hi 1 (by omega)
    have h' : ((List.range (t.toNat / 2)).flatMap
        fun i' => bucketPair y y.length (t.toNat / 2) i')[2 * i + 1]? =
        (bucketPair y y.length (t.toNat / 2) i)[1]? := h
    rw [h', bucketPair_eq_pair y y.length (t.toNat / 2) i hnB hn2 hi]
    rfl
  refine ⟨hmi.1, hmi.2.1, hma.1, hma.2.1,
    fun j hj1 hj2 => ⟨hmi.2.2 j hj1 hj2, hma.2.2 j hj1 hj2⟩, ?_, ?_, ?_, ?_⟩
  · rw [List.getD_eq_getElem?_getD, List.getElem?_map, hidx0]
    rfl
  · rw [List.getD_eq_getElem?_getD, List.getElem?_map, hidx1]
    rfl
  · rw [List.getD_eq_getElem?_getD, List.getElem?_map, hidx0]
    rfl
  · rw [List.getD_eq_getElem?_getD, List.getElem?_map, hidx1]
    rfl

/-- C5 (amended): for every call with `len(input) > target ≥ 2`,
`minmax_downsample` returns exactly `2 * (target // 2)` points without
raising, and each bucket contributes its true minimum and maximum y-value
(at the bucket's first argmin/argmax index), emitted earlier-index-first.
(The claimed tolerance of `target = 1` fails: that input raises
`ZeroDivisionError`; see the counterexample.) -/
theorem c5_minmax_amended (x y : List ℚ) (t : ℤ) (h2 : 2 ≤ t)
    (hn : t < (y.length : ℤ)) : c5Prop x y t := by
  have hnB : 0 < t.toNat / 2 := by omega
  have hn2 : 2 * (t.toNat / 2) + 1 ≤ y.length := by omega
  have hf : ∀ i' < t.toNat / 2,
      (bucketPair y y.length (t.toNat / 2) i').length = 2 := by
    intro i' hi'
    rw [bucketPair_eq_pair y y.length (t.toNat / 2) i' hnB hn2 hi']
    rfl
  have hlen : (minmaxIndices y y.length (t.toNat / 2)).length = 2 * (t.toNat / 2) := by
    unfold minmaxIndices
    exact flatMap_range_two_length _ _ hf
  refine ⟨((minmaxIndices y y.length (t.toNat / 2)).map (fun i => x.getD i 0),
           (minmaxIndices y y.length (t.toNat / 2)).map (fun i => y.getD i 0)),
    minmax_downsample_eq x y t h2 hn, ?_, ?_, ?_⟩
  · rw [List.length_map, hlen]
  · rw [List.length_map, hlen]
  · intro i hi
    exact minmax_bucket_values x y t h2 hn i hi

/-- Witness for C5 (amended) at a concrete input: 6 points, target 4. -/
theorem c5_minmax_witness : c5Prop [0, 1, 2, 3, 4, 5] [3, 1, 2, 5, 4, 0] 4 :=
  c5_minmax_amended [0, 1, 2, 3, 4, 5] [3, 1, 2, 5, 4, 0] 4 (by decide) (by decide)

/-- MinMax part of C10. -/
theorem c10_minmax_part (x y : List ℚ) (t : ℤ) (h2 : 2 ≤ t)
    (hn : t < (y.length : ℤ)) : c10MinmaxProp x y t := by
  have hnB : 0 < t.toNat / 2 := by omega
  have hn2 : 2 * (t.toNat / 2) + 1 ≤ y.length := by omega
  have haux := minmax_flat_sorted_aux y y.length (t.toNat / 2) hnB hn2 (t.toNat / 2) 0
    (by omega)
  have hrange : List.range (t.toNat / 2) = List.range' 0 (t.toNat / 2) :=
    List.range_eq_range' _
  have hbounds : ∀ j ∈ minmaxIndices y y.length (t.toNat / 2), j < y.length := by
    intro j hj
    unfold minmaxIndices at hj
    rw [hrange] at hj
    exact (haux.1 j hj).2
  have hpairwise : (minmaxIndices y y.length (t.toNat / 2)).Pairwise (· ≤ ·) := by
    unfold minmaxIndices
    rw [hrange]
    exact haux.2
  exact ⟨minmax_downsample_eq x y t h2 hn, hbounds, hpairwise,
    fun hxy p hp => mem_zip_of_map_indices x y _ hxy hbounds p hp⟩

/-- Floor of an LTTB bucket boundary, as natural division. -/
theorem lttb_floor_cast (n t i : ℕ) (hn : 2 ≤ n) (ht : 2 ≤ t) :
    pyInt ((i : ℚ) * (((n : ℚ) - 2) / ((t : ℚ) - 2))) = i * (n - 2) / (t - 2) := by
  have h1 : ((n : ℚ) - 2) = ((n - 2 : ℕ) : ℚ) := by rw [Nat.cast_sub hn, Nat.cast_ofNat]
  have h2 : ((t : ℚ) - 2) = ((t - 2 : ℕ) : ℚ) := by rw [Nat.cast_sub ht, Nat.cast_ofNat]
  rw [h1, h2, pyInt_natCast_mul_div]

/-- Same for the `(i + 1)`-th boundary. -/
theorem lttb_floor_cast_succ (n t i : ℕ) (hn : 2 ≤ n) (ht : 2 ≤ t) :
    pyInt (((i : ℚ) + 1) * (((n : ℚ) - 2) / ((t : ℚ) - 2))) = (i + 1) * (n - 2) / (t - 2) := by
  have h : ((i : ℚ) + 1) = ((i + 1 : ℕ) : ℚ) := by push_cast; ring
  rw [h, lttb_floor_cast n t (i + 1) hn ht]

/-- Same for the `(i + 2)`-th boundary. -/
theorem lttb_floor_cast_succ2 (n t i : ℕ) (hn : 2 ≤ n) (ht : 2 ≤ t) :
    pyInt (((i : ℚ) + 2) * (((n : ℚ) - 2) / ((t : ℚ) - 2))) = (i + 2) * (n - 2) / (t - 2) := by
  have h : ((i : ℚ) + 2) = ((i + 2 : ℕ) : ℚ) := by push_cast; ring
  rw [h, lttb_floor_cast n t (i + 2) hn ht]

/-- Consecutive LTTB bucket starts are strictly increasing (the bucket size
exceeds 1). -/
theorem lttb_bucket_mono (d c i : ℕ) (hc : 0 < c) (hd : c < d) :
    i * d / c + 1 ≤ (i + 1) * d / c := by
  have h1 : i * d + c ≤ (i + 1) * d := by nlinarith
  calc i * d / c + 1 = (i * d + c) / c := (Nat.add_div_right _ hc).symm
  _ ≤ (i + 1) * d / c := Nat.div_le_div_right h1

/-- An LTTB bucket start stays strictly inside the interior range. -/
theorem lttb_bucket_start_lt (d c i : ℕ) (hc : 0 < c) (hd : 0 < d) (hi : i < c) :
    i * d / c < d := by
  rw [Nat.div_lt_iff_lt_mul hc]
  nlinarith

/-- The argmax fold of LTTB lands on its start value or on a candidate. -/
theorem argmaxArea_mem (f : ℕ → ℚ) (init : ℕ) (cand : List ℕ) :
    argmaxArea f init cand = init ∨ argmaxArea f init cand ∈ cand := by
  unfold argmaxArea
  suffices h : ∀ (L : List ℕ) (b : ℕ × ℚ),
      (L.foldl (fun best j => if best.2 < f j then (j, f j) else best) b).1 = b.1 ∨
      (L.foldl (fun best j => if best.2 < f j then (j, f j) else best) b).1 ∈ L by
    exact h cand (init, -1)
  intro L
  induction L with
  | nil => exact fun b => Or.inl rfl
  | cons j L ih =>
    intro b
    rw [List.foldl_cons]
    rcases ih (if b.2 < f j then (j, f j) else b) with h | h
    · rw [h]
      split_ifs
      · exact Or.inr (List.mem_cons_self j L)
      · exact Or.inl rfl
    · exact Or.inr (List.mem_cons_of_mem j h)

/-- Bounds for an argmax fold over a non-empty candidate range. -/
theorem argmaxArea_bounds (f : ℕ → ℚ) (s len : ℕ) (hlen : 1 ≤ len) :
    s ≤ argmaxArea f s (List.range' s len) ∧ argmaxArea f s (List.range' s len) < s + len := by
  rcases argmaxArea_mem f s (List.range' s len) with h | h
  · rw [h]
    omega
  · have := List.mem_range'_1.mp h
    omega

/-- The index picked for LTTB bucket `i` lies inside that bucket's candidate
range `[start, min(end, n - 1))`, whatever the previously selected index. -/
theorem lttbPick_mem (x y : List ℚ) (n t i prev : ℕ) (ht : 3 ≤ t) (hn : t < n)
    (hi : i < t - 2) :
    i * (n - 2) / (t - 2) + 1 ≤ lttbPick x y (((n : ℚ) - 2) / ((t : ℚ) - 2)) n prev i ∧
    lttbPick x y (((n : ℚ) - 2) / ((t : ℚ) - 2)) n prev i <
      min ((i + 1) * (n - 2) / (t - 2) + 1) (n - 1) := by
  have hn2 : 2 ≤ n := by omega
  have ht2 : 2 ≤ t := by omega
  have hc : 0 < t - 2 := by omega
  have hd : t - 2 < n - 2 := by omega
  have hmono := lttb_bucket_mono (n - 2) (t - 2) i hc hd
  have hstart := lttb_bucket_start_lt (n - 2) (t - 2) i hc (by omega) hi
  simp only [lttbPick]
  rw [lttb_floor_cast n t i hn2 ht2, lttb_floor_cast_succ n t i hn2 ht2]
  constructor
  · exact (argmaxArea_bounds _ _ _ (by omega)).1
  · refine lt_of_lt_of_le (argmaxArea_bounds _ _ _ (by omega)).2 ?_
    omega

/-- Bounds, ordering and length for the LTTB bucket loop starting at bucket
`a`, regardless of the threaded previously-selected index. -/
theorem lttbSelAux_spec (x y : List ℚ) (n t : ℕ) (ht : 3 ≤ t) (hn : t < n) :
    ∀ (k a prev : ℕ), a + k ≤ t - 2 →
    (lttbSelAux x y (((n : ℚ) - 2) / ((t : ℚ) - 2)) n (List.range' a k) prev).length = k ∧
    (∀ j ∈ lttbSelAux x y (((n : ℚ) - 2) / ((t : ℚ) - 2)) n (List.range' a k) prev,
      a * (n - 2) / (t - 2) + 1 ≤ j ∧ j < n - 1) ∧
    (lttbSelAux x y (((n : ℚ) - 2) / ((t : ℚ) - 2)) n (List.range' a k) prev).Chain' (· < ·) := by
  intro k
  induction k with
  | zero =>
    intro a prev _
    rw [List.range'_zero]
    refine ⟨rfl, ?_, by simp [lttbSelAux]⟩
    intro j hj
    simp [lttbSelAux] at hj
  | succ m ih =>
    intro a prev hak
    have ha : a < t - 2 := by omega
    have hpick := lttbPick_mem x y n t a prev ht hn ha
    have hmono := lttb_bucket_mono (n - 2) (t - 2) a (by omega) (by omega)
    rw [List.range'_succ]
    obtain ⟨ihl, ihb, ihc⟩ := ih (a + 1) (lttbPick x y (((n : ℚ) - 2) / ((t : ℚ) - 2)) n prev a)
      (by omega)
    refine ⟨?_, ?_, ?_⟩
    · simp only [lttbSelAux, List.length_cons]
      rw [ihl]
    · intro j hj
      simp only [lttbSelAux, List.mem_cons] at hj
      rcases hj with hj | hj
      · rw [hj]
        omega
      · have := ihb j hj
        omega
    · simp only [lttbSelAux]
      rw [List.chain'_cons']
      refine ⟨?_, ihc⟩
      intro h hh
      have hmem := List.mem_of_mem_head? hh
      have := ihb h hmem
      omega

/-- Structure of the complete LTTB index list for a reducing call with
`t ≥ 3`: exactly `t` indices, all in range, strictly increasing, starting at
0 and ending at the last index. -/
theorem lttbIndices_spec (x y : List ℚ) (t : ℕ) (ht : 3 ≤ t) (hn : t < y.length) :
    (lttbIndices x y t).length = t ∧
    (∀ j ∈ lttbIndices x y t, j < y.length) ∧
    (lttbIndices x y t).Pairwise (· < ·) ∧
    (lttbIndices x y t).head? = some 0 ∧
    (lttbIndices x y t).getLast? = some (y.length - 1) := by
  have hsel := lttbSelAux_spec x y y.length t ht hn (t - 2) 0 0 (by omega)
  obtain ⟨hlen, hbounds, hchain⟩ := hsel
  have hrange : List.range (t - 2) = List.range' 0 (t - 2) := List.range_eq_range' _
  simp only [lttbIndices, hrange]
  set R := lttbSelAux x y (((y.length : ℚ) - 2) / ((t : ℚ) - 2)) y.length
    (List.range' 0 (t - 2)) 0 with hR
  have hRne : R ≠ [] := by
    intro hcon
    rw [hcon] at hlen
    simp at hlen
    omega
  refine ⟨?_, ?_, ?_, rfl, ?_⟩
  · simp only [List.length_cons, List.length_append, List.length_cons, List.length_nil, hlen]
    omega
  · intro j hj
    rcases List.mem_cons.mp hj with h | h
    · omega
    · rcases List.mem_append.mp h with h | h
      · have := (hbounds j h).2
        omega
      · have : j = y.length - 1 := by simpa using h
        omega
  · rw [List.chain'_iff_pairwise.symm, List.chain'_cons']
    constructor
    · intro h hh
      rw [List.head?_append] at hh
      obtain ⟨h0, hh0⟩ : ∃ h0, R.head? = some h0 := by
        cases hcr : R.head? with
        | none => exact absurd (List.head?_eq_none_iff.mp hcr) hRne
        | some v => exact ⟨v, rfl⟩
      rw [hh0] at hh
      have hEq : h0 = h := by simpa using hh
      subst hEq
      have hmem : h0 ∈ R := List.mem_of_mem_head? (show h0 ∈ R.head? by rw [hh0]; rfl)
      have := (hbounds h0 hmem).1
      have h00 : 0 * (y.length - 2) / (t - 2) = 0 := by simp
      omega
    · rw [List.chain'_append]
      refine ⟨hchain, by simp, ?_⟩
      intro u hu v hv
      have hmu := List.mem_of_mem_getLast? hu
      have := (hbounds u hmu).2
      have hveq : y.length - 1 = v := by simpa using hv
      omega
  · rw [← List.cons_append, List.getLast?_concat]

/-- The reducing branch of `lttb_downsample` for `threshold ≥ 3`, exposed. -/
theorem lttb_downsample_eq (x y : List ℚ) (t : ℤ) (h3 : 3 ≤ t)
    (hn : t < (y.length : ℤ)) :
    lttb_downsample x y t =
      some ((lttbIndices x y t.toNat).map (fun i => x.getD i 0),
            (lttbIndices x y t.toNat).map (fun i => y.getD i 0)) := by
  simp only [lttb_downsample]
  rw [if_neg (show ¬ t ≤ 0 by omega), if_neg (show ¬ (y.length : ℤ) ≤ t by omega),
    if_neg (show ¬ t < 2 by omega), if_neg (show ¬ t = 2 by omega)]

/-- LTTB part of C3: first and last point are preserved when no error is
raised (`threshold ≥ 3`). -/
theorem c3_lttb_first_last (x y : List ℚ) (t : ℤ) (hxy : x.length = y.length)
    (h3 : 3 ≤ t) (hn : t < (y.length : ℤ)) :
    ∃ xs ys, lttb_downsample x y t = some (xs, ys) ∧
      xs.head? = x.head? ∧ xs.getLast? = x.getLast? ∧
      ys.head? = y.head? ∧ ys.getLast? = y.getLast? := by
  have ht' : 3 ≤ t.toNat := by omega
  have hn' : t.toNat < y.length := by omega
  obtain ⟨_, _, _, hhead, hlast⟩ := lttbIndices_spec x y t.toNat ht' hn'
  have hylen : 0 < y.length := by omega
  have hxlen : 0 < x.length := by omega
  refine ⟨_, _, lttb_downsample_eq x y t h3 hn, ?_, ?_, ?_, ?_⟩
  · rw [List.head?_map, hhead, head?_eq_getD x hxlen]
    rfl
  · rw [List.getLast?_map, hlast, getLast?_eq_getD x hxlen, hxy]
    rfl
  · rw [List.head?_map, hhead, head?_eq_getD y hylen]
    rfl
  · rw [List.getLast?_map, hlast, getLast?_eq_getD y hylen]
    rfl

/-- LTTB part of C10. -/
theorem c10_lttb_part (x y : List ℚ) (t : ℤ) (h3 : 3 ≤ t)
    (hn : t < (y.length : ℤ)) : c10LttbProp x y t := by
  have ht' : 3 ≤ t.toNat := by omega
  have hn' : t.toNat < y.length := by omega
  obtain ⟨_, hbounds, hpair, _, _⟩ := lttbIndices_spec x y t.toNat ht' hn'
  exact ⟨lttb_downsample_eq x y t h3 hn, hbounds, hpair,
    fun hxy p hp => mem_zip_of_map_indices x y _ hxy hbounds p hp⟩

/-- C3 (amended): Stride preserves the first and last point for every
reducing call, and LTTB preserves them whenever it does not raise
(threshold ≥ 3); MinMax does not preserve them in general (see the
counterexample), and LTTB with threshold 2 raises instead of returning. -/
theorem c3_first_last_amended (x y : List ℚ) (t : ℤ) (hxy : x.length = y.length)
    (h2 : 2 ≤ t) (hn : t < (y.length : ℤ)) : c3Prop x y t :=
  ⟨c3_stride_first_last x y t hxy (by omega) hn,
   fun h3 => c3_lttb_first_last x y t hxy h3 hn⟩

/-- Witness for C3 (amended) at a concrete input. -/
theorem c3_first_last_witness : c3Prop [0, 1, 2, 3, 4] [5, 6, 7, 8, 9] 3 :=
  c3_first_last_amended [0, 1, 2, 3, 4] [5, 6, 7, 8, 9] 3 (by decide) (by decide) (by decide)

/-- C10: for each reducing call of the three algorithms, the output is the
image of a selected index list whose members are all in range — so every
output point is an input point — and the selected indices are strictly
increasing for Stride and LTTB and non-decreasing for MinMax (a bucket whose
argmin and argmax coincide emits the same index twice). -/
theorem c10_membership_order (x y : List ℚ) (t : ℤ) :
    (1 ≤ t → t < (y.length : ℤ) → c10StrideProp x y t) ∧
    (2 ≤ t → t < (y.length : ℤ) → c10MinmaxProp x y t) ∧
    (3 ≤ t → t < (y.length : ℤ) → c10LttbProp x y t) :=
  ⟨fun h1 hn => c10_stride_part x y t h1 hn,
   fun h2 hn => c10_minmax_part x y t h2 hn,
   fun h3 hn => c10_lttb_part x y t h3 hn⟩

/-- Witness for C10 at a concrete input, all three algorithms reducing. -/
theorem c10_membership_order_witness :
    c10StrideProp [1, 2, 3, 4, 5] [9, 8, 7, 6, 5] 3 ∧
    c10MinmaxProp [1, 2, 3, 4, 5] [9, 8, 7, 6, 5] 3 ∧
    c10LttbProp [1, 2, 3, 4, 5] [9, 8, 7, 6, 5] 3 :=
  ⟨(c10_membership_order [1, 2, 3, 4, 5] [9, 8, 7, 6, 5] 3).1 (by decide) (by decide),
   (c10_membership_order [1, 2, 3, 4, 5] [9, 8, 7, 6, 5] 3).2.1 (by decide) (by decide),
   (c10_membership_order [1, 2, 3, 4, 5] [9, 8, 7, 6, 5] 3).2.2 (by decide) (by decide)⟩
